import Mathlib

/-!
Verification of the AI Resume Analyzer backend (`src/main.py`).

Python strings are modelled as `List Char` (`PyStr`); Python's `None` is
`Option.none`; functions that `raise` are modelled with `Except`.  Python
dicts used as records become structures, and the `SECTION_ICONS` dict —
iterated in insertion order — becomes an ordered association list.
-/

set_option autoImplicit false

namespace ResumeAnalyzer

/-- Python strings, modelled as lists of unicode characters. -/
abbrev PyStr := List Char

/-- Whitespace as recognised by Python's `str.strip()` and the regex class
`\s`, restricted to ASCII (space, tab, newline, carriage return, form feed,
vertical tab).  The inputs relevant here contain no non-ASCII whitespace. -/
def pyIsSpace (c : Char) : Bool :=
  c = ' ' || c = '\t' || c = '\n' || c = '\r' || c = '\x0c' || c = '\x0b'

/-- Drop characters satisfying `p` from the left (Python `lstrip`). -/
def pyLstrip (p : Char → Bool) (l : PyStr) : PyStr := l.dropWhile p

/-- Drop characters satisfying `p` from the right (Python `rstrip`). -/
def pyRstrip (p : Char → Bool) (l : PyStr) : PyStr := (l.reverse.dropWhile p).reverse

/-- Strip characters satisfying `p` from both ends. -/
def pyStripBy (p : Char → Bool) (l : PyStr) : PyStr := pyRstrip p (pyLstrip p l)

/-- Python's `str.strip()` with no argument: strip whitespace at both ends. -/
def stripChars (l : PyStr) : PyStr := pyStripBy pyIsSpace l

/-- Python's `str.lower()` (ASCII case folding; the icon-table keys and the
headings the model is told to emit are ASCII). -/
def pyLower (l : PyStr) : PyStr := l.map Char.toLower

/-- Python's substring test `needle in haystack`: true iff `needle` occurs
contiguously in `haystack` (the empty needle occurs in everything). -/
def pyContains (needle : PyStr) : PyStr → Bool
  | [] => needle.isEmpty
  | c :: rest => needle.isPrefixOf (c :: rest) || pyContains needle rest

/-- Python's `sep.join(parts)`. -/
def pyJoin (sep : PyStr) : List PyStr → PyStr
  | [] => []
  | [x] => x
  | x :: y :: rest => x ++ sep ++ pyJoin sep (y :: rest)

/-- Python's `raw_text.split("\n")`: split at every newline, keeping empty
chunks, and always returning at least one chunk (`"".split("\n") == [""]`). -/
def splitNl : PyStr → List PyStr
  | [] => [[]]
  | c :: rest =>
    if c = '\n' then [] :: splitNl rest
    else
      match splitNl rest with
      | [] => [[c]]
      | l :: ls => (c :: l) :: ls

/-- One parsed analysis section: the Python dict `{title, icon, body}`. -/
structure AnalysisSection where
  title : PyStr
  icon : PyStr
  body : PyStr
  deriving DecidableEq

/-- The `SECTION_ICONS` table.  Python dicts iterate in insertion order, so
the table is an ordered association list; iteration order is part of the
first-match-wins contract. -/
def SECTION_ICONS : List (PyStr × PyStr) :=
  [("Key Strengths".toList, "💪".toList),
   ("Skill Gaps".toList, "🔍".toList),
   ("ATS Optimisation Suggestions".toList, "🎯".toList),
   ("ATS Optimization Suggestions".toList, "🎯".toList),
   ("Match Percentage".toList, "📊".toList),
   ("Overall Summary".toList, "📝".toList)]

/-- The icon-selection loop of `_build_section`: start from the default
`"📌"` and take the first `key` with `key.lower() in title.lower()`
(the Python loop `break`s at the first match). -/
def iconScan (title : PyStr) : List (PyStr × PyStr) → PyStr
  | [] => "📌".toList
  | kv :: rest =>
    if pyContains (pyLower kv.1) (pyLower title) then kv.2 else iconScan title rest

/-- `_build_section(title, body_lines)`: icon from the table scan, body from
`"\n".join(body_lines).strip()`. -/
def _build_section (title : PyStr) (body_lines : List PyStr) : AnalysisSection :=
  { title := title
    icon := iconScan title SECTION_ICONS
    body := stripChars (pyJoin "\n".toList body_lines) }

/-- `re.match(r"^##\s+(.+)", line.strip())`, returning capture group 1.
On the stripped line a match needs the two hash marks, at least one
whitespace character, and then at least one further character; the greedy
`\s+` consumes the whole whitespace run, so the group starts at the first
non-whitespace character after the marker.  (Because the line was stripped
it cannot end in whitespace, so the `[]` branch below is unreachable; and
lines produced by `split("\n")` contain no newline, so the fact that the
regex `.` does not match a newline never comes into play.) -/
def headingOf (line : PyStr) : Option PyStr :=
  match stripChars line with
  | '#' :: '#' :: c :: rest =>
    if pyIsSpace c then
      match (c :: rest).dropWhile pyIsSpace with
      | [] => none
      | g => some g
    else none
  | _ => none

/-- Whether a raw line is recognised as a section heading. -/
def isHeadingLine (line : PyStr) : Bool := (headingOf line).isSome

/-- `heading_match.group(1).strip().rstrip("#").strip()`: the processing of
a captured heading into the stored title. -/
def titleOf (g : PyStr) : PyStr :=
  stripChars (pyRstrip (fun c => c = '#') (stripChars g))

/-- The title a heading line contributes (`titleOf` of its captured text). -/
def lineTitle (line : PyStr) : PyStr :=
  match headingOf line with
  | some g => titleOf g
  | none => []

/-- Loop state of `parse_analysis_sections`:
`(sections, current_title, current_body_lines)`. -/
abbrev ParserState := List AnalysisSection × Option PyStr × List PyStr

/-- One iteration of the `for line in raw_text.split("\n")` loop.  On a
heading, a pending section (if any) is flushed and the body accumulator is
reset; when no heading was pending the accumulator is kept as is.  On a
non-heading line the raw line is appended to the accumulator. -/
def parseStep (st : ParserState) (line : PyStr) : ParserState :=
  match headingOf line with
  | some g =>
    match st with
    | (sections, some t, bodyLines) =>
      (sections ++ [_build_section t bodyLines], some (titleOf g), [])
    | (sections, none, bodyLines) => (sections, some (titleOf g), bodyLines)
  | none => (st.1, st.2.1, st.2.2 ++ [line])

/-- The flush after the loop: `if current_title is not None: append(...)`. -/
def finalizeState : ParserState → List AnalysisSection
  | (sections, some t, bodyLines) => sections ++ [_build_section t bodyLines]
  | (sections, none, _) => sections

/-- `parse_analysis_sections(raw_text)`: run the loop over the split lines,
flush the last pending section, and fall back to a single generic
`Analysis` card when no heading was ever recognised. -/
def parse_analysis_sections (raw_text : PyStr) : List AnalysisSection :=
  let sections := finalizeState ((splitNl raw_text).foldl parseStep ([], none, []))
  if sections.isEmpty then
    [{ title := "Analysis".toList, icon := "📋".toList, body := stripChars raw_text }]
  else sections

/-- The `ValueError` message of `extract_text_from_pdf`. -/
def EXTRACT_ERROR : PyStr :=
  ("Could not extract any text from the PDF. " ++
   "The file may be image-based or encrypted.").toList

/-- `extract_text_from_pdf`, over the per-page results of
`page.extract_text()` (one string per page, in document order).  Pages whose
text is falsy (empty) are skipped; contributing pages are stripped and
joined with `"\n\n"`; a blank overall result raises `ValueError`. -/
def extract_text_from_pdf (pages : List PyStr) : Except PyStr PyStr :=
  let pages_text := pages.filterMap fun text =>
    if text.isEmpty then none else some (stripChars text)
  let full_text := pyJoin "\n\n".toList pages_text
  if (stripChars full_text).isEmpty then Except.error EXTRACT_ERROR
  else Except.ok full_text

/-- The `RuntimeError` message raised when `GROQ_API_KEY` is missing. -/
def GROQ_KEY_ERROR : PyStr :=
  ("GROQ_API_KEY environment variable is not set. " ++
   "Please set it before running the application.").toList

/-- The request `analyse_resume` hands to the Groq client: model name, the
two chat messages as (role, content) pairs, and the token ceiling.  (The
float `temperature=0.4` is not modelled.) -/
structure GroqRequest where
  model : PyStr
  messages : List (PyStr × PyStr)
  max_tokens : Nat
  deriving DecidableEq

/-- `analyse_resume(resume_text, job_description)`.  `groq_api_key` stands
for `os.environ.get("GROQ_API_KEY")`; `if not api_key` fires on both absence
and the empty string.  The guard runs before any prompt/client/request is
built, which the embedding reflects by returning `Except.error` without
constructing a `GroqRequest`. -/
def analyse_resume (groq_api_key : Option PyStr) (resume_text : PyStr)
    (job_description : PyStr) : Except PyStr GroqRequest :=
  match groq_api_key with
  | none => Except.error GROQ_KEY_ERROR
  | some api_key =>
    if api_key.isEmpty then Except.error GROQ_KEY_ERROR
    else
      let hasJd := (stripChars job_description).isEmpty = false
      let system_prompt :=
        ("You are an expert career coach, ATS (Applicant Tracking System) specialist, " ++
         "and professional resume reviewer.  Analyse the resume provided and return " ++
         "a detailed, actionable report using the EXACT section headings below.\n\n" ++
         "## Key Strengths\n" ++
         "List the candidate\x27s most compelling strengths, achievements, and skills.\n\n" ++
         "## Skill Gaps\n" ++
         "Identify missing or weak skills relative to modern industry expectations").toList ++
        (if hasJd then " and the provided job description".toList else []) ++
        (".\n\n" ++
         "## ATS Optimisation Suggestions\n" ++
         "Provide concrete tips to improve ATS compatibility — keyword usage, " ++
         "formatting, section ordering, and quantifiable achievements.\n\n").toList ++
        (if hasJd then
          ("## Match Percentage\n" ++
           "Estimate how well the resume matches the job description as a " ++
           "percentage (0-100%).  Briefly justify the score.\n\n").toList
         else []) ++
        ("## Overall Summary\n" ++
         "Wrap up with a concise overall assessment and top three recommended " ++
         "next steps for the candidate.\n\n" ++
         "IMPORTANT: Use the exact section headings listed above (prefixed with ##). " ++
         "Use bullet points for lists.  Be specific, not generic.").toList
      let user_message :=
        "### RESUME\n\n".toList ++ resume_text ++
        (if hasJd then "\n\n### JOB DESCRIPTION\n\n".toList ++ job_description else [])
      Except.ok
        { model := "llama-3.1-8b-instant".toList
          messages := [("system".toList, system_prompt), ("user".toList, user_message)]
          max_tokens := 2048 }

/-! ### Segment view of the line loop (used to state body integrity) -/

/-- A run of segments: each is one heading line paired with the non-heading
lines that follow it, flattened back into the underlying line sequence. -/
def segsLines : List (PyStr × List PyStr) → List PyStr
  | [] => []
  | hb :: rest => hb.1 :: (hb.2 ++ segsLines rest)

/-- The sections the loop builds from a pending title `t`, its accumulated
body lines `acc`, and the remaining segments. -/
def sectionsFrom (t : PyStr) (acc : List PyStr) :
    List (PyStr × List PyStr) → List AnalysisSection
  | [] => [_build_section t acc]
  | hb :: rest => _build_section t acc :: sectionsFrom (lineTitle hb.1) hb.2 rest

/-- Modelled from the spec: the body of each section is the intervening
lines joined with newlines and trimmed at the outer edges; per the code the
first section additionally keeps the lines that preceded the first heading. -/
def specBodies (pre : List PyStr) : List (PyStr × List PyStr) → List PyStr
  | [] => []
  | hb :: rest =>
    stripChars (pyJoin "\n".toList (pre ++ hb.2))
      :: rest.map (fun hb2 => stripChars (pyJoin "\n".toList hb2.2))

/-- Modelled from the spec (§4.1 step 5): the glyph of the first IconTable
key whose text is a case-insensitive substring of the title, else the
generic fallback glyph. -/
def specFirstIcon (title : PyStr) : PyStr :=
  match SECTION_ICONS.find? (fun kv => pyContains (pyLower kv.1) (pyLower title)) with
  | some kv => kv.2
  | none => "📌".toList

/-- The invariant provable for every section the loop can emit: a non-empty
icon and an already-trimmed (possibly empty) title. -/
def sectionOk (sec : AnalysisSection) : Prop :=
  sec.icon ≠ [] ∧ stripChars sec.title = sec.title

example : splitNl "a\nb".toList = ["a".toList, "b".toList] := by decide

example : parse_analysis_sections "".toList =
    [{ title := "Analysis".toList, icon := "📋".toList, body := [] }] := by decide

example :
    parse_analysis_sections "## Key Strengths\nGood communicator\n\n## Skill Gaps\nNo cloud experience\n".toList =
      [{ title := "Key Strengths".toList, icon := "💪".toList, body := "Good communicator".toList },
       { title := "Skill Gaps".toList, icon := "🔍".toList, body := "No cloud experience".toList }] := by
  decide

example : parse_analysis_sections "## #".toList =
    [{ title := [], icon := "📌".toList, body := [] }] := by decide

example : parse_analysis_sections "preamble\n## T\nbody".toList =
    [{ title := "T".toList, icon := "📌".toList, body := "preamble\nbody".toList }] := by decide

/-! ### Lemmas about the string helpers -/

theorem build_section_title (t : PyStr) (b : List PyStr) : (_build_section t b).title = t := rfl

theorem build_section_icon (t : PyStr) (b : List PyStr) :
    (_build_section t b).icon = iconScan t SECTION_ICONS := rfl

theorem build_section_body (t : PyStr) (b : List PyStr) :
    (_build_section t b).body = stripChars (pyJoin "\n".toList b) := rfl

theorem dropWhile_head_false {α : Type} (p : α → Bool) :
    ∀ (l : List α) (a : α) (rest : List α), l.dropWhile p = a :: rest → p a = false := by
  intro l
  induction l with
  | nil => intro a rest h; simp [List.dropWhile] at h
  | cons x xs ih =>
    intro a rest h
    cases hx : p x
    · rw [List.dropWhile_cons, hx] at h
      simp only [Bool.false_eq_true, if_false, List.cons.injEq] at h
      rw [← h.1]; exact hx
    · rw [List.dropWhile_cons, hx] at h
      simp only [if_true] at h
      exact ih a rest h

theorem pyRstrip_eq_rdropWhile (p : Char → Bool) (l : PyStr) :
    pyRstrip p l = List.rdropWhile p l := rfl

theorem stripChars_head_not_space (l : PyStr) (a : Char) (rest : PyStr)
    (h : stripChars l = a :: rest) : pyIsSpace a = false := by
  have hpre := List.rdropWhile_prefix pyIsSpace (List.dropWhile pyIsSpace l)
  rw [show List.rdropWhile pyIsSpace (List.dropWhile pyIsSpace l) = stripChars l from rfl,
    h] at hpre
  obtain ⟨tail, htail⟩ := hpre
  exact dropWhile_head_false pyIsSpace l a (rest ++ tail) (by rw [← htail]; simp)

theorem stripChars_idem (l : PyStr) : stripChars (stripChars l) = stripChars l := by
  cases hcase : stripChars l with
  | nil => rfl
  | cons a rest =>
    have ha : pyIsSpace a = false := stripChars_head_not_space l a rest hcase
    have h1 : List.dropWhile pyIsSpace (a :: rest) = a :: rest := by
      rw [List.dropWhile_cons, ha]
      simp
    show List.rdropWhile pyIsSpace (List.dropWhile pyIsSpace (a :: rest)) = a :: rest
    rw [h1, ← hcase]
    show List.rdropWhile pyIsSpace
        (List.rdropWhile pyIsSpace (List.dropWhile pyIsSpace l))
      = List.rdropWhile pyIsSpace (List.dropWhile pyIsSpace l)
    rw [List.rdropWhile_idempotent]

theorem stripChars_eq_nil_iff (l : PyStr) :
    stripChars l = [] ↔ ∀ c ∈ l, pyIsSpace c = true := by
  constructor
  · intro h c hc
    have h1 : ∀ x ∈ List.dropWhile pyIsSpace l, pyIsSpace x = true := by
      have h2 : List.rdropWhile pyIsSpace (List.dropWhile pyIsSpace l) = [] := h
      intro x hx
      exact List.rdropWhile_eq_nil_iff.mp h2 x hx
    have h2 := List.takeWhile_append_dropWhile (p := pyIsSpace) (l := l)
    rw [← h2] at hc
    rcases List.mem_append.mp hc with h3 | h3
    · exact List.mem_takeWhile_imp h3
    · exact h1 c h3
  · intro h
    have h1 : List.dropWhile pyIsSpace l = [] :=
      List.dropWhile_eq_nil_iff.mpr (fun x hx => h x hx)
    show List.rdropWhile pyIsSpace (List.dropWhile pyIsSpace l) = []
    rw [h1]
    rfl

theorem titleOf_trimmed (g : PyStr) : stripChars (titleOf g) = titleOf g := by
  unfold titleOf
  exact stripChars_idem _

theorem headingOf_eq_none (l : PyStr) (h : isHeadingLine l = false) :
    headingOf l = none := by
  cases hh : headingOf l with
  | none => rfl
  | some g => rw [isHeadingLine, hh] at h; simp at h

theorem isHeadingLine_some (l : PyStr) (h : isHeadingLine l = true) :
    ∃ g, headingOf l = some g := by
  cases hh : headingOf l with
  | none => rw [isHeadingLine, hh] at h; simp at h
  | some g => exact ⟨g, rfl⟩

/-! ### Lemmas about the parsing loop -/

theorem foldl_parseStep_no_heading :
    ∀ (ls : List PyStr) (secs : List AnalysisSection) (t? : Option PyStr) (b : List PyStr),
      (∀ l ∈ ls, isHeadingLine l = false) →
      ls.foldl parseStep (secs, t?, b) = (secs, t?, b ++ ls) := by
  intro ls
  induction ls with
  | nil => intro secs t? b _; simp
  | cons l ls ih =>
    intro secs t? b h
    have hl : headingOf l = none := headingOf_eq_none l (h l (by simp))
    rw [List.foldl_cons]
    have hstep : parseStep (secs, t?, b) l = (secs, t?, b ++ [l]) := by
      simp [parseStep, hl]
    rw [hstep, ih secs t? (b ++ [l]) (fun x hx => h x (by simp [hx]))]
    simp

theorem finalize_foldl_titles :
    ∀ (ls : List PyStr) (secs : List AnalysisSection) (t? : Option PyStr) (b : List PyStr),
      (finalizeState (ls.foldl parseStep (secs, t?, b))).map AnalysisSection.title
        = secs.map AnalysisSection.title ++ t?.toList
            ++ (ls.filter isHeadingLine).map lineTitle := by
  intro ls
  induction ls with
  | nil =>
    intro secs t? b
    cases t? <;> simp [finalizeState, build_section_title]
  | cons l ls ih =>
    intro secs t? b
    rw [List.foldl_cons, List.filter_cons]
    cases hh : headingOf l with
    | none =>
      have hline : isHeadingLine l = false := by simp [isHeadingLine, hh]
      have hstep : parseStep (secs, t?, b) l = (secs, t?, b ++ [l]) := by
        simp [parseStep, hh]
      rw [hstep, ih]
      simp [hline]
    | some g =>
      have hline : isHeadingLine l = true := by simp [isHeadingLine, hh]
      have hlt : lineTitle l = titleOf g := by simp [lineTitle, hh]
      cases t? with
      | none =>
        have hstep : parseStep (secs, none, b) l = (secs, some (titleOf g), b) := by
          simp [parseStep, hh]
        rw [hstep, ih]
        simp [hline, hlt]
      | some t =>
        have hstep : parseStep (secs, some t, b) l
            = (secs ++ [_build_section t b], some (titleOf g), []) := by
          simp [parseStep, hh]
        rw [hstep, ih]
        simp [hline, hlt, build_section_title]

theorem finalize_foldl_prefix :
    ∀ (ls : List PyStr) (secs : List AnalysisSection) (t? : Option PyStr) (b : List PyStr),
      ∃ tail, finalizeState (ls.foldl parseStep (secs, t?, b)) = secs ++ tail := by
  intro ls
  induction ls with
  | nil =>
    intro secs t? b
    cases t? with
    | none => exact ⟨[], by simp [finalizeState]⟩
    | some t => exact ⟨[_build_section t b], rfl⟩
  | cons l ls ih =>
    intro secs t? b
    rw [List.foldl_cons]
    cases hh : headingOf l with
    | none =>
      have hstep : parseStep (secs, t?, b) l = (secs, t?, b ++ [l]) := by
        simp [parseStep, hh]
      rw [hstep]
      exact ih secs t? (b ++ [l])
    | some g =>
      cases t? with
      | none =>
        have hstep : parseStep (secs, none, b) l = (secs, some (titleOf g), b) := by
          simp [parseStep, hh]
        rw [hstep]
        exact ih secs (some (titleOf g)) b
      | some t =>
        have hstep : parseStep (secs, some t, b) l
            = (secs ++ [_build_section t b], some (titleOf g), []) := by
          simp [parseStep, hh]
        rw [hstep]
        obtain ⟨tail, htail⟩ := ih (secs ++ [_build_section t b]) (some (titleOf g)) []
        exact ⟨_build_section t b :: tail, by rw [htail]; simp⟩

theorem finalize_foldl_segs :
    ∀ (segs : List (PyStr × List PyStr)),
      (∀ hb ∈ segs, isHeadingLine hb.1 = true ∧ ∀ l ∈ hb.2, isHeadingLine l = false) →
      ∀ (secs : List AnalysisSection) (t : PyStr) (acc : List PyStr),
        finalizeState ((segsLines segs).foldl parseStep (secs, some t, acc))
          = secs ++ sectionsFrom t acc segs := by
  intro segs
  induction segs with
  | nil => intro _ secs t acc; simp [segsLines, sectionsFrom, finalizeState]
  | cons hb rest ih =>
    intro hwf secs t acc
    obtain ⟨hh, hbody⟩ := hwf hb (by simp)
    obtain ⟨g, hg⟩ := isHeadingLine_some hb.1 hh
    have hlt : lineTitle hb.1 = titleOf g := by simp [lineTitle, hg]
    show finalizeState ((hb.1 :: (hb.2 ++ segsLines rest)).foldl parseStep (secs, some t, acc))
        = _
    rw [List.foldl_cons]
    have hstep : parseStep (secs, some t, acc) hb.1
        = (secs ++ [_build_section t acc], some (titleOf g), []) := by
      simp [parseStep, hg]
    rw [hstep, List.foldl_append,
      foldl_parseStep_no_heading hb.2 (secs ++ [_build_section t acc]) (some (titleOf g)) []
        hbody,
      List.nil_append,
      ih (fun x hx => hwf x (by simp [hx])) (secs ++ [_build_section t acc]) (titleOf g) hb.2]
    simp [sectionsFrom, hlt]

theorem sectionsFrom_bodies :
    ∀ (segs : List (PyStr × List PyStr)) (t : PyStr) (acc : List PyStr),
      (sectionsFrom t acc segs).map AnalysisSection.body
        = stripChars (pyJoin "\n".toList acc)
            :: segs.map (fun hb => stripChars (pyJoin "\n".toList hb.2)) := by
  intro segs
  induction segs with
  | nil => intro t acc; simp [sectionsFrom, build_section_body]
  | cons hb rest ih => intro t acc; simp [sectionsFrom, build_section_body, ih]

theorem sectionsFrom_ne_nil (t : PyStr) (acc : List PyStr)
    (segs : List (PyStr × List PyStr)) : sectionsFrom t acc segs ≠ [] := by
  cases segs <;> simp [sectionsFrom]

theorem parse_eq_ite (s : PyStr) :
    parse_analysis_sections s
      = if (finalizeState ((splitNl s).foldl parseStep ([], none, []))).isEmpty
        then [{ title := "Analysis".toList, icon := "📋".toList, body := stripChars s }]
        else finalizeState ((splitNl s).foldl parseStep ([], none, [])) := rfl

theorem parse_eq_finalize_of_ne_nil (s : PyStr)
    (h : finalizeState ((splitNl s).foldl parseStep ([], none, [])) ≠ []) :
    parse_analysis_sections s
      = finalizeState ((splitNl s).foldl parseStep ([], none, [])) := by
  cases hE : finalizeState ((splitNl s).foldl parseStep ([], none, [])) with
  | nil => exact absurd hE h
  | cons a t => rw [parse_eq_ite, hE]; rfl

theorem iconScan_eq_find (title : PyStr) :
    ∀ table : List (PyStr × PyStr),
      iconScan title table
        = match table.find? (fun kv => pyContains (pyLower kv.1) (pyLower title)) with
          | some kv => kv.2
          | none => "📌".toList := by
  intro table
  induction table with
  | nil => rfl
  | cons kv rest ih =>
    cases hm : pyContains (pyLower kv.1) (pyLower title)
    · rw [show iconScan title (kv :: rest)
          = if pyContains (pyLower kv.1) (pyLower title) then kv.2
            else iconScan title rest from rfl, hm]
      simp only [Bool.false_eq_true, if_false]
      rw [List.find?_cons_of_neg _ (by simp [hm]), ih]
    · rw [show iconScan title (kv :: rest)
          = if pyContains (pyLower kv.1) (pyLower title) then kv.2
            else iconScan title rest from rfl, hm]
      simp only [if_true]
      rw [List.find?_cons_of_pos _ (by simp [hm])]

/-! ### The claims -/

/-- Claim C1: for every string `s` (including the empty string),
`parse_analysis_sections s` terminates normally (it is a total function of
its input) and returns a non-empty list of sections: either the loop
produced at least one section, or the single fallback section is returned.
There is no error branch. -/
theorem claim_C1_parse_total_nonempty (s : PyStr) : parse_analysis_sections s ≠ [] := by
  rw [parse_eq_ite]
  cases hE : finalizeState ((splitNl s).foldl parseStep ([], none, [])) with
  | nil => simp
  | cons a t => simp

/-- Claim C2: if no line of `s` matches the heading pattern, the result is
exactly one section with title `"Analysis"`, icon `"📋"` and body `trim(s)`
(so the empty string yields one fallback section with empty body). -/
theorem claim_C2_fallback (s : PyStr)
    (h : ∀ l ∈ splitNl s, isHeadingLine l = false) :
    parse_analysis_sections s
      = [{ title := "Analysis".toList, icon := "📋".toList, body := stripChars s }] := by
  rw [parse_eq_ite, foldl_parseStep_no_heading (splitNl s) [] none [] h]
  rfl

/-- Witness for C2 at the spec's free-text example; the empty string is the
degenerate instance of the same theorem. -/
theorem claim_C2_fallback_witness :
    (∀ l ∈ splitNl "Just some free text with no headings.".toList,
        isHeadingLine l = false)
    ∧ parse_analysis_sections "Just some free text with no headings.".toList
        = [{ title := "Analysis".toList, icon := "📋".toList,
             body := stripChars "Just some free text with no headings.".toList }] :=
  ⟨by decide, claim_C2_fallback "Just some free text with no headings.".toList (by decide)⟩

/-- Claim C3: when `s` contains at least one heading-pattern line, the
number of sections returned equals the number of heading-pattern lines. -/
theorem claim_C3_section_count (s : PyStr)
    (h : 0 < ((splitNl s).filter isHeadingLine).length) :
    (parse_analysis_sections s).length
      = ((splitNl s).filter isHeadingLine).length := by
  have ht := finalize_foldl_titles (splitNl s) [] none []
  simp only [List.map_nil, List.nil_append, Option.toList_none] at ht
  have hlen : (finalizeState ((splitNl s).foldl parseStep ([], none, []))).length
      = ((splitNl s).filter isHeadingLine).length := by
    have h2 := congrArg List.length ht
    simpa using h2
  have hne : finalizeState ((splitNl s).foldl parseStep ([], none, [])) ≠ [] := by
    intro hc
    rw [hc] at hlen
    simp only [List.length_nil] at hlen
    rw [← hlen] at h
    simp at h
  rw [parse_eq_finalize_of_ne_nil s hne, hlen]

/-- Witness for C3 at the spec's two-heading example. -/
theorem claim_C3_section_count_witness :
    0 < ((splitNl "## Key Strengths\nGood communicator\n\n## Skill Gaps\nNo cloud experience\n".toList).filter isHeadingLine).length
    ∧ (parse_analysis_sections "## Key Strengths\nGood communicator\n\n## Skill Gaps\nNo cloud experience\n".toList).length
        = ((splitNl "## Key Strengths\nGood communicator\n\n## Skill Gaps\nNo cloud experience\n".toList).filter isHeadingLine).length :=
  ⟨by decide, claim_C3_section_count _ (by decide)⟩

/-- Claim C4: when `s` contains at least one heading-pattern line, the
sections come out in exactly the order of the heading lines in `s`: the
list of section titles equals the list of (processed) heading-line titles,
taken in source order. -/
theorem claim_C4_order (s : PyStr)
    (h : (splitNl s).filter isHeadingLine ≠ []) :
    (parse_analysis_sections s).map AnalysisSection.title
      = ((splitNl s).filter isHeadingLine).map lineTitle := by
  have ht := finalize_foldl_titles (splitNl s) [] none []
  simp only [List.map_nil, List.nil_append, Option.toList_none] at ht
  have hne : finalizeState ((splitNl s).foldl parseStep ([], none, [])) ≠ [] := by
    intro hc
    rw [hc] at ht
    simp only [List.map_nil] at ht
    exact h (List.map_eq_nil_iff.mp ht.symm)
  rw [parse_eq_finalize_of_ne_nil s hne, ht]

/-- Witness for C4: two headings, reported in source order. -/
theorem claim_C4_order_witness :
    (splitNl "## Skill Gaps\nx\n## Key Strengths\ny".toList).filter isHeadingLine ≠ []
    ∧ (parse_analysis_sections "## Skill Gaps\nx\n## Key Strengths\ny".toList).map AnalysisSection.title
        = ((splitNl "## Skill Gaps\nx\n## Key Strengths\ny".toList).filter isHeadingLine).map lineTitle :=
  ⟨by decide, claim_C4_order _ (by decide)⟩

/-- Claim C5: the icon of a built section is the glyph of the first
`SECTION_ICONS` key (in the table's fixed iteration order) whose text is a
case-insensitive substring of the title, and the fallback `"📌"` when no
key matches; the selection is a deterministic function of the title, and
the US and UK spellings of `ATS Optimi[sz]ation Suggestions` resolve to the
same icon. -/
theorem claim_C5_icon_first_match :
    (∀ (title : PyStr) (body_lines : List PyStr),
        (_build_section title body_lines).icon = specFirstIcon title)
    ∧ (_build_section "ATS Optimization Suggestions".toList []).icon
        = (_build_section "ATS Optimisation Suggestions".toList []).icon := by
  constructor
  · intro title b
    rw [build_section_icon, iconScan_eq_find title SECTION_ICONS]
    rfl
  · decide

/-- Claim C9: with the `GROQ_API_KEY` credential absent, `analyse_resume`
fails with the exact configuration-error message of the source, for every
resume text and job description; no `GroqRequest` is ever produced, i.e. the
credential check precedes client construction and the API call. -/
theorem claim_C9_missing_key (resume_text job_description : PyStr) :
    analyse_resume none resume_text job_description = Except.error GROQ_KEY_ERROR := rfl

/-- Counterexample to C6 as stated: in `"preamble\n## T\nbody"` the only
heading is `## T`, and the only line between it and the end of the input is
`body`; yet the produced section's body is `"preamble\nbody"`, not
`"body"` — a line that does not lie between the heading and the next
heading (the preamble) appears in it. -/
theorem claim_C6_counterexample :
    (parse_analysis_sections "preamble\n## T\nbody".toList).map AnalysisSection.body
        ≠ ["body".toList]
    ∧ (parse_analysis_sections "preamble\n## T\nbody".toList).map AnalysisSection.body
        = ["preamble\nbody".toList] := by
  constructor
  · decide
  · decide

/-- Claim C6 (amended): for an input whose lines decompose into a
heading-free preamble followed by segments (heading line + following
non-heading lines), every section's body is the lines between its heading
and the next heading (or end of input), joined with newlines and trimmed of
leading/trailing whitespace as a whole, with interior blank lines
preserved — except that the FIRST section's body additionally contains the
preamble lines, in order, before its own intervening lines (the body-line
accumulator is only reset when a previous heading is finalized). -/
theorem claim_C6_bodies (s : PyStr) (pre : List PyStr)
    (segs : List (PyStr × List PyStr))
    (hsplit : splitNl s = pre ++ segsLines segs)
    (hpre : ∀ l ∈ pre, isHeadingLine l = false)
    (hsegs : ∀ hb ∈ segs,
        isHeadingLine hb.1 = true ∧ ∀ l ∈ hb.2, isHeadingLine l = false)
    (hne : segs ≠ []) :
    (parse_analysis_sections s).map AnalysisSection.body = specBodies pre segs := by
  cases segs with
  | nil => exact absurd rfl hne
  | cons hb rest =>
    obtain ⟨hh, hbody⟩ := hsegs hb (by simp)
    obtain ⟨g, hg⟩ := isHeadingLine_some hb.1 hh
    have hfold : finalizeState ((splitNl s).foldl parseStep ([], none, []))
        = sectionsFrom (titleOf g) (pre ++ hb.2) rest := by
      rw [hsplit]
      rw [List.foldl_append, foldl_parseStep_no_heading pre [] none [] hpre,
        List.nil_append]
      show finalizeState
          ((hb.1 :: (hb.2 ++ segsLines rest)).foldl parseStep ([], none, pre)) = _
      rw [List.foldl_cons,
        show parseStep ([], none, pre) hb.1 = ([], some (titleOf g), pre) from by
          simp [parseStep, hg],
        List.foldl_append,
        foldl_parseStep_no_heading hb.2 [] (some (titleOf g)) pre hbody,
        finalize_foldl_segs rest (fun x hx => hsegs x (by simp [hx])) []
          (titleOf g) (pre ++ hb.2),
        List.nil_append]
    have hne2 : finalizeState ((splitNl s).foldl parseStep ([], none, [])) ≠ [] := by
      rw [hfold]
      exact sectionsFrom_ne_nil _ _ _
    rw [parse_eq_finalize_of_ne_nil s hne2, hfold, sectionsFrom_bodies]
    rfl

/-- Witness for the amended C6: a preamble line plus two segments, the
first body containing an interior blank line. -/
theorem claim_C6_bodies_witness :
    splitNl "intro\n## Key Strengths\nGood\n\n## Skill Gaps\nGap".toList
        = ["intro".toList]
          ++ segsLines [("## Key Strengths".toList, ["Good".toList, []]),
                        ("## Skill Gaps".toList, ["Gap".toList])]
    ∧ (∀ l ∈ ["intro".toList], isHeadingLine l = false)
    ∧ (∀ hb ∈ [("## Key Strengths".toList, ["Good".toList, ([] : PyStr)]),
               ("## Skill Gaps".toList, ["Gap".toList])],
        isHeadingLine hb.1 = true ∧ ∀ l ∈ hb.2, isHeadingLine l = false)
    ∧ ([("## Key Strengths".toList, ["Good".toList, ([] : PyStr)]),
        ("## Skill Gaps".toList, ["Gap".toList])] : List (PyStr × List PyStr)) ≠ []
    ∧ (parse_analysis_sections
          "intro\n## Key Strengths\nGood\n\n## Skill Gaps\nGap".toList).map
            AnalysisSection.body
        = specBodies ["intro".toList]
            [("## Key Strengths".toList, ["Good".toList, []]),
             ("## Skill Gaps".toList, ["Gap".toList])] :=
  ⟨by decide, by decide, by decide, by decide,
    claim_C6_bodies _ _ _ (by decide) (by decide) (by decide) (by decide)⟩

/-- Counterexample to C7 as stated: on input `"## #"` the parser produces
exactly one section, and its title is the empty string (the captured
heading text `"#"` strips to nothing after `rstrip("#")`), so a produced
title can be empty after trimming. -/
theorem claim_C7_counterexample :
    (parse_analysis_sections "## #".toList).map AnalysisSection.title = [[]] := by
  decide

/-- Every value stored in the icon table is a non-empty glyph, and so is
the default, hence the scan never yields an empty icon. -/
theorem iconScan_ne_nil (title : PyStr) :
    ∀ table : List (PyStr × PyStr), (∀ kv ∈ table, kv.2 ≠ []) →
      iconScan title table ≠ [] := by
  intro table
  induction table with
  | nil =>
    intro _
    show "📌".toList ≠ []
    decide
  | cons kv rest ih =>
    intro hall
    show (if pyContains (pyLower kv.1) (pyLower title) then kv.2
          else iconScan title rest) ≠ []
    cases hm : pyContains (pyLower kv.1) (pyLower title)
    · simp only [hm, Bool.false_eq_true, if_false]
      exact ih (fun x hx => hall x (by simp [hx]))
    · simp only [hm, if_true]
      exact hall kv (by simp)

theorem build_section_ok (t : PyStr) (b : List PyStr) (h : stripChars t = t) :
    sectionOk (_build_section t b) :=
  ⟨iconScan_ne_nil t SECTION_ICONS (by decide), h⟩

theorem foldl_sections_ok :
    ∀ (ls : List PyStr) (secs : List AnalysisSection) (t? : Option PyStr) (b : List PyStr),
      (∀ sec ∈ secs, sectionOk sec) →
      (∀ t, t? = some t → stripChars t = t) →
      ∀ sec ∈ finalizeState (ls.foldl parseStep (secs, t?, b)), sectionOk sec := by
  intro ls
  induction ls with
  | nil =>
    intro secs t? b hsecs ht sec hsec
    cases t? with
    | none => exact hsecs sec hsec
    | some t =>
      have hsec2 : sec ∈ secs ++ [_build_section t b] := hsec
      rcases List.mem_append.mp hsec2 with h | h
      · exact hsecs sec h
      · have he : sec = _build_section t b := by simpa using h
        rw [he]
        exact build_section_ok t b (ht t rfl)
  | cons l ls ih =>
    intro secs t? b hsecs ht sec hsec
    rw [List.foldl_cons] at hsec
    cases hh : headingOf l with
    | none =>
      rw [show parseStep (secs, t?, b) l = (secs, t?, b ++ [l]) from by
        simp [parseStep, hh]] at hsec
      exact ih secs t? (b ++ [l]) hsecs ht sec hsec
    | some g =>
      cases t? with
      | none =>
        rw [show parseStep (secs, none, b) l = (secs, some (titleOf g), b) from by
          simp [parseStep, hh]] at hsec
        refine ih secs (some (titleOf g)) b hsecs ?_ sec hsec
        intro t htt
        obtain rfl : titleOf g = t := Option.some.inj htt
        exact titleOf_trimmed g
      | some t0 =>
        rw [show parseStep (secs, some t0, b) l
            = (secs ++ [_build_section t0 b], some (titleOf g), []) from by
          simp [parseStep, hh]] at hsec
        refine ih (secs ++ [_build_section t0 b]) (some (titleOf g)) [] ?_ ?_ sec hsec
        · intro sec2 hsec2
          rcases List.mem_append.mp hsec2 with h | h
          · exact hsecs sec2 h
          · have he : sec2 = _build_section t0 b := by simpa using h
            rw [he]
            exact build_section_ok t0 b (ht t0 rfl)
        · intro t htt
          obtain rfl : titleOf g = t := Option.some.inj htt
          exact titleOf_trimmed g

/-- Claim C7 (amended): every section produced by the parser on any input
has an icon that is always set (a non-empty glyph, falling back to the
default) and a possibly-empty body; its title carries no leading or
trailing whitespace (trimming it is the identity), but — unlike the
original claim — it CAN be the empty string, when the heading's captured
text consists solely of hash marks and whitespace (see the
counterexample `"## #"`). -/
theorem claim_C7_invariants (s : PyStr) (sec : AnalysisSection)
    (h : sec ∈ parse_analysis_sections s) :
    sec.icon ≠ [] ∧ stripChars sec.title = sec.title := by
  rw [parse_eq_ite] at h
  by_cases hE : (finalizeState ((splitNl s).foldl parseStep ([], none, []))).isEmpty = true
  · rw [if_pos hE] at h
    have he : sec = AnalysisSection.mk "Analysis".toList "📋".toList (stripChars s) := by
      simpa using h
    rw [he]
    refine ⟨?_, ?_⟩
    · show "📋".toList ≠ []
      decide
    · show stripChars "Analysis".toList = "Analysis".toList
      decide
  · rw [if_neg hE] at h
    refine foldl_sections_ok (splitNl s) [] none [] (by simp) ?_ sec h
    intro t htt
    simp at htt

/-- Witness for the amended C7 at a concrete parse result. -/
theorem claim_C7_invariants_witness :
    AnalysisSection.mk "Key Strengths".toList "💪".toList "Hi".toList
        ∈ parse_analysis_sections "## Key Strengths\nHi".toList
    ∧ ((AnalysisSection.mk "Key Strengths".toList "💪".toList "Hi".toList).icon ≠ []
        ∧ stripChars (AnalysisSection.mk "Key Strengths".toList "💪".toList "Hi".toList).title
            = (AnalysisSection.mk "Key Strengths".toList "💪".toList "Hi".toList).title) :=
  ⟨by decide, claim_C7_invariants "## Key Strengths\nHi".toList _ (by decide)⟩

/-- Claim C8: when the lines of `s` are a heading-free preamble, a heading
line `h`, and a remainder, the first produced section's body lines (before
the single outer trim) are exactly the preamble lines followed by the
non-heading lines up to the next heading: the preamble is kept, in order
and unmodified, as a prefix, because the body-line accumulator is reset
only when a previous heading is finalized. -/
theorem finalize_first_section (pre : List PyStr) (h : PyStr) (tw dw : List PyStr)
    (hpre : ∀ l ∈ pre, isHeadingLine l = false)
    (hh : isHeadingLine h = true)
    (htw : ∀ l ∈ tw, isHeadingLine l = false)
    (hdw : ∀ h2 rest2, dw = h2 :: rest2 → isHeadingLine h2 = true) :
    ∃ tail, finalizeState ((pre ++ h :: (tw ++ dw)).foldl parseStep ([], none, []))
      = _build_section (lineTitle h) (pre ++ tw) :: tail := by
  obtain ⟨g, hg⟩ := isHeadingLine_some h hh
  have hlt : lineTitle h = titleOf g := by simp [lineTitle, hg]
  rw [List.foldl_append, foldl_parseStep_no_heading pre [] none [] hpre,
    List.nil_append, List.foldl_cons,
    show parseStep ([], none, pre) h = ([], some (titleOf g), pre) from by
      simp [parseStep, hg],
    List.foldl_append,
    foldl_parseStep_no_heading tw [] (some (titleOf g)) pre htw]
  cases hdwc : dw with
  | nil =>
    refine ⟨[], ?_⟩
    rw [List.foldl_nil, hlt]
    rfl
  | cons h2 rest2 =>
    have hh2 : isHeadingLine h2 = true := hdw h2 rest2 hdwc
    obtain ⟨g2, hg2⟩ := isHeadingLine_some h2 hh2
    rw [List.foldl_cons,
      show parseStep ([], some (titleOf g), pre ++ tw) h2
          = ([_build_section (titleOf g) (pre ++ tw)], some (titleOf g2), []) from by
        simp [parseStep, hg2]]
    obtain ⟨tail, htail⟩ := finalize_foldl_prefix rest2
      [_build_section (titleOf g) (pre ++ tw)] (some (titleOf g2)) []
    refine ⟨tail, ?_⟩
    rw [htail, hlt]
    rfl

theorem claim_C8_preamble (s : PyStr) (pre : List PyStr) (h : PyStr)
    (rest : List PyStr)
    (hsplit : splitNl s = pre ++ h :: rest)
    (hpre : ∀ l ∈ pre, isHeadingLine l = false)
    (hh : isHeadingLine h = true) :
    (parse_analysis_sections s).head?.map AnalysisSection.body
      = some (stripChars (pyJoin "\n".toList
          (pre ++ rest.takeWhile (fun l => !isHeadingLine l)))) := by
  have htwf : ∀ l ∈ rest.takeWhile (fun l => !isHeadingLine l),
      isHeadingLine l = false := by
    intro l hl
    have h2 := List.mem_takeWhile_imp hl
    simpa using h2
  have hsplit2 : splitNl s
      = pre ++ h :: (rest.takeWhile (fun l => !isHeadingLine l)
          ++ rest.dropWhile (fun l => !isHeadingLine l)) := by
    rw [hsplit, List.takeWhile_append_dropWhile]
  obtain ⟨tail, htail⟩ := finalize_first_section pre h
    (rest.takeWhile (fun l => !isHeadingLine l))
    (rest.dropWhile (fun l => !isHeadingLine l)) hpre hh htwf
    (fun h2 rest2 hdw => by
      have h3 := dropWhile_head_false (fun l => !isHeadingLine l) rest h2 rest2 hdw
      simpa using h3)
  have hfin : finalizeState ((splitNl s).foldl parseStep ([], none, []))
      = _build_section (lineTitle h)
          (pre ++ rest.takeWhile (fun l => !isHeadingLine l)) :: tail := by
    rw [hsplit2]
    exact htail
  rw [parse_eq_finalize_of_ne_nil s (by rw [hfin]; simp), hfin]
  simp [build_section_body]

/-- Witness for C8: two preamble lines survive as the prefix of the first
section's body. -/
theorem claim_C8_preamble_witness :
    splitNl "Header line\nmore\n## T\nbody1\nbody2\n## U\nx".toList
        = ["Header line".toList, "more".toList]
          ++ (("## T".toList : PyStr)
            :: ["body1".toList, "body2".toList, "## U".toList, "x".toList])
    ∧ (∀ l ∈ ["Header line".toList, "more".toList], isHeadingLine l = false)
    ∧ isHeadingLine "## T".toList = true
    ∧ (parse_analysis_sections
          "Header line\nmore\n## T\nbody1\nbody2\n## U\nx".toList).head?.map
            AnalysisSection.body
        = some (stripChars (pyJoin "\n".toList
            (["Header line".toList, "more".toList]
              ++ (["body1".toList, "body2".toList, "## U".toList,
                   "x".toList]).takeWhile (fun l => !isHeadingLine l)))) :=
  ⟨by decide, by decide, by decide,
    claim_C8_preamble "Header line\nmore\n## T\nbody1\nbody2\n## U\nx".toList
      ["Header line".toList, "more".toList] "## T".toList
      ["body1".toList, "body2".toList, "## U".toList, "x".toList]
      (by decide) (by decide) (by decide)⟩

/-! ### Claim C10: the PDF text extractor -/

theorem forall_mem_pyJoin (p : Char → Bool) (sep : PyStr)
    (hsep : ∀ c ∈ sep, p c = true) :
    ∀ parts : List PyStr,
      (∀ c ∈ pyJoin sep parts, p c = true)
        ↔ ∀ part ∈ parts, ∀ c ∈ part, p c = true := by
  intro parts
  induction parts with
  | nil => simp [pyJoin]
  | cons x xs ih =>
    cases xs with
    | nil => simp [pyJoin]
    | cons y rest =>
      have hj : pyJoin sep (x :: y :: rest) = x ++ sep ++ pyJoin sep (y :: rest) := rfl
      rw [hj]
      constructor
      · intro hall part hpart c hc
        rcases List.mem_cons.mp hpart with rfl | hpart2
        · exact hall c (by simp [List.mem_append, hc])
        · have hj2 : ∀ c2 ∈ pyJoin sep (y :: rest), p c2 = true := fun c2 hc2 =>
            hall c2 (by simp [List.mem_append, hc2])
          exact (ih.mp hj2) part hpart2 c hc
      · intro hparts c hc
        rcases List.mem_append.mp hc with hc1 | hc2
        · rcases List.mem_append.mp hc1 with hcx | hcs
          · exact hparts x (by simp) c hcx
          · exact hsep c hcs
        · exact ih.mpr (fun part hp c2 hc2 => hparts part (by simp [hp]) c2 hc2) c hc2

theorem forall_mem_stripChars_iff (t : PyStr) :
    (∀ c ∈ stripChars t, pyIsSpace c = true) ↔ ∀ c ∈ t, pyIsSpace c = true := by
  constructor
  · intro hall
    rw [← stripChars_eq_nil_iff]
    cases hc : stripChars t with
    | nil => rfl
    | cons a rest =>
      have hfalse := stripChars_head_not_space t a rest hc
      have htrue := hall a (by rw [hc]; simp)
      rw [hfalse] at htrue
      exact absurd htrue (by simp)
  · intro hall c hc
    have h1 : c ∈ List.dropWhile pyIsSpace t :=
      (List.rdropWhile_prefix pyIsSpace (List.dropWhile pyIsSpace t)).subset hc
    exact hall c ((List.dropWhile_suffix pyIsSpace).subset h1)

theorem pages_text_eq :
    ∀ pages : List PyStr,
      pages.filterMap (fun text => if text.isEmpty then none else some (stripChars text))
        = (pages.filter (fun t => !t.isEmpty)).map stripChars := by
  intro pages
  induction pages with
  | nil => rfl
  | cons t rest ih =>
    cases t with
    | nil => exact ih
    | cons a b => exact congrArg (List.cons (stripChars (a :: b))) ih

theorem extract_eq_ite (pages : List PyStr) :
    extract_text_from_pdf pages
      = if (stripChars (pyJoin "\n\n".toList
            (pages.filterMap
              (fun text => if text.isEmpty then none else some (stripChars text))))).isEmpty
        then Except.error EXTRACT_ERROR
        else Except.ok (pyJoin "\n\n".toList
            (pages.filterMap
              (fun text => if text.isEmpty then none else some (stripChars text)))) := rfl

/-- Claim C10: `extract_text_from_pdf` fails (with the extraction-error
message) exactly when the concatenation of all per-page extracted text is
empty or whitespace-only after trimming; otherwise it succeeds, skipping
pages that contributed no text and joining the contributing pages' stripped
text with blank-line separators in document page order. -/
theorem claim_C10_extract (pages : List PyStr) :
    (extract_text_from_pdf pages = Except.error EXTRACT_ERROR
        ↔ stripChars pages.flatten = [])
    ∧ (stripChars pages.flatten ≠ [] →
        extract_text_from_pdf pages
          = Except.ok (pyJoin "\n\n".toList
              ((pages.filter (fun t => !t.isEmpty)).map stripChars))) := by
  have hsep : ∀ c ∈ ("\n\n".toList : PyStr), pyIsSpace c = true := by decide
  have hcore : stripChars (pyJoin "\n\n".toList
        (pages.filterMap
          (fun text => if text.isEmpty then none else some (stripChars text)))) = []
      ↔ stripChars pages.flatten = [] := by
    rw [stripChars_eq_nil_iff, stripChars_eq_nil_iff,
      forall_mem_pyJoin pyIsSpace "\n\n".toList hsep]
    constructor
    · intro hall c hc
      obtain ⟨page, hpage, hcp⟩ := List.mem_flatten.mp hc
      cases hemp : page.isEmpty
      · have hmem : stripChars page ∈ pages.filterMap
            (fun text => if text.isEmpty then none else some (stripChars text)) :=
          List.mem_filterMap.mpr ⟨page, hpage, by simp [hemp]⟩
        exact (forall_mem_stripChars_iff page).mp
          (fun c2 hc2 => hall (stripChars page) hmem c2 hc2) c hcp
      · have hpn : page = [] := by simpa using hemp
        rw [hpn] at hcp
        exact absurd hcp (by simp)
    · intro hall part hpart c hc
      obtain ⟨page, hpage, hf⟩ := List.mem_filterMap.mp hpart
      cases hemp : page.isEmpty
      · simp only [hemp, Bool.false_eq_true, if_false, Option.some.injEq] at hf
        exact (forall_mem_stripChars_iff page).mpr
          (fun c2 hc2 => hall c2 (List.mem_flatten.mpr ⟨page, hpage, hc2⟩)) c (hf ▸ hc)
      · simp [hemp] at hf
  constructor
  · constructor
    · intro herr
      by_cases hcond : (stripChars (pyJoin "\n\n".toList
          (pages.filterMap
            (fun text => if text.isEmpty then none else some (stripChars text))))).isEmpty
            = true
      · exact hcore.mp (by simpa using hcond)
      · rw [extract_eq_ite, if_neg hcond] at herr
        exact absurd herr (by simp)
    · intro hnil
      rw [extract_eq_ite, if_pos]
      rw [hcore.mpr hnil]
      rfl
  · intro hne
    have hcond : ¬ (stripChars (pyJoin "\n\n".toList
        (pages.filterMap
          (fun text => if text.isEmpty then none else some (stripChars text))))).isEmpty
          = true := by
      intro hc
      exact hne (hcore.mp (by simpa using hc))
    rw [extract_eq_ite, if_neg hcond, pages_text_eq]

/-- Witness for C10: a whitespace-only page and an empty page are skipped
without error, the two contributing pages are kept in order. -/
theorem claim_C10_extract_witness :
    stripChars (["  ".toList, "Page one".toList, [], "Page two".toList]
        : List PyStr).flatten ≠ []
    ∧ extract_text_from_pdf ["  ".toList, "Page one".toList, [], "Page two".toList]
        = Except.ok (pyJoin "\n\n".toList
            (((["  ".toList, "Page one".toList, [], "Page two".toList]
                : List PyStr).filter (fun t => !t.isEmpty)).map stripChars)) :=
  ⟨by decide, (claim_C10_extract _).2 (by decide)⟩

end ResumeAnalyzer
